import Mathlib

/-!
Verification of the SSD1306 display driver (src/ssd1306.cpp) against its
natural-language specification.  The C++ code is shallowly embedded: the
framebuffer is a total map from byte index to stored byte value, machine
bytes are naturals kept below 256 by explicit masking exactly where the
source masks or truncates, and the stateful update loop becomes a step
function on an explicit part-state record.
-/

namespace SSD1306

/-- A framebuffer is a total map from byte index to the stored byte value.
The device buffer `mFramebuffer` holds `height * 16 + 1` bytes; the theorems
below only ever mention indices of that range. -/
def Framebuffer : Type := ℕ → ℕ

/-- A single byte store `mFramebuffer[i] = v`. -/
def fbWrite (fb : Framebuffer) (i v : ℕ) : Framebuffer :=
  fun j => if j = i then v else fb j

/-- `CSSD1306::SetPixel` (src/ssd1306.cpp:173-182): mask the coordinates with
`0x7f` and `0x3f`, then OR the bit `1 << (y & 7)` into the byte at
`((y & 0xf8) << 4) + x + 1`. -/
def setPixel (fb : Framebuffer) (pX pY : ℕ) : Framebuffer :=
  let x := pX &&& 0x7f
  let y := pY &&& 0x3f
  fbWrite fb (((y &&& 0xf8) <<< 4) + x + 1)
    (fb (((y &&& 0xf8) <<< 4) + x + 1) ||| (1 <<< (y &&& 7)))

/-- `CSSD1306::ClearPixel` (src/ssd1306.cpp:184-191): same addressing, and the
stored byte is a `u8`, so `&= ~(1 << (y & 7))` masks with the complement of
that bit within the 8-bit byte. -/
def clearPixel (fb : Framebuffer) (pX pY : ℕ) : Framebuffer :=
  let x := pX &&& 0x7f
  let y := pY &&& 0x3f
  fbWrite fb (((y &&& 0xf8) <<< 4) + x + 1)
    (fb (((y &&& 0xf8) <<< 4) + x + 1) &&& (0xff ^^^ (1 <<< (y &&& 7))))

/-- The byte index targeted by `SetPixel`/`ClearPixel`, in the page-addressed
form used by the specification: page `y/8`, column `x`, offset by the control
byte. -/
def pixelIndex (pX pY : ℕ) : ℕ :=
  pY % 64 / 8 * 128 + pX % 128 + 1

lemma and_mask_mod_128 (n : ℕ) : n &&& 0x7f = n % 128 :=
  Nat.and_pow_two_sub_one_eq_mod n 7

lemma and_mask_mod_64 (n : ℕ) : n &&& 0x3f = n % 64 :=
  Nat.and_pow_two_sub_one_eq_mod n 6

lemma masked_y_shift (y : ℕ) : ((y % 64 &&& 0xf8) <<< 4) = y % 64 / 8 * 128 := by
  have h : ∀ m, m < 64 → (m &&& 248) <<< 4 = m / 8 * 128 := by decide
  exact h _ (Nat.mod_lt _ (by norm_num))

lemma masked_y_bit (y : ℕ) : (y % 64 &&& 7) = y % 8 := by
  have h1 : (y % 64 &&& 7) = y % 64 % 8 := Nat.and_pow_two_sub_one_eq_mod _ 3
  rw [h1, Nat.mod_mod_of_dvd _ (by norm_num)]

lemma setPixel_eq (fb : Framebuffer) (pX pY : ℕ) :
    setPixel fb pX pY =
      fbWrite fb (pixelIndex pX pY)
        (fb (pixelIndex pX pY) ||| (1 <<< (pY % 8))) := by
  simp only [setPixel, pixelIndex, and_mask_mod_128, and_mask_mod_64,
    masked_y_shift, masked_y_bit]

lemma clearPixel_eq (fb : Framebuffer) (pX pY : ℕ) :
    clearPixel fb pX pY =
      fbWrite fb (pixelIndex pX pY)
        (fb (pixelIndex pX pY) &&& (0xff ^^^ (1 <<< (pY % 8)))) := by
  simp only [clearPixel, pixelIndex, and_mask_mod_128, and_mask_mod_64,
    masked_y_shift, masked_y_bit]

lemma fbWrite_self (fb : Framebuffer) (i v : ℕ) : fbWrite fb i v i = v := by
  simp [fbWrite]

lemma fbWrite_other (fb : Framebuffer) (i v j : ℕ) (h : j ≠ i) :
    fbWrite fb i v j = fb j := by
  simp [fbWrite, h]

lemma or_bit_testBit_self (v b : ℕ) : (v ||| 1 <<< b).testBit b = true := by
  simp [Nat.testBit_or, Nat.shiftLeft_eq, Nat.testBit_two_pow_self]

lemma shiftLeft_one_testBit (b b' : ℕ) (h : b' ≠ b) :
    (1 <<< b).testBit b' = false := by
  rw [Nat.shiftLeft_eq, one_mul]
  exact Nat.testBit_two_pow_of_ne (fun he => h he.symm)

lemma or_bit_testBit_other (v b b' : ℕ) (h : b' ≠ b) :
    (v ||| 1 <<< b).testBit b' = v.testBit b' := by
  simp [Nat.testBit_or, shiftLeft_one_testBit b b' h]

lemma testBit_255 (b : ℕ) (hb : b < 8) : (0xff : ℕ).testBit b = true := by
  have h : ∀ b, b < 8 → Nat.testBit 255 b = true := by decide
  exact h b hb

lemma mask_testBit_self (b : ℕ) (hb : b < 8) :
    (0xff ^^^ 1 <<< b).testBit b = false := by
  simp [Nat.testBit_xor, testBit_255 b hb, Nat.shiftLeft_eq,
    Nat.testBit_two_pow_self]

lemma mask_testBit_other (b b' : ℕ) (hb' : b' < 8) (h : b' ≠ b) :
    (0xff ^^^ 1 <<< b).testBit b' = true := by
  simp [Nat.testBit_xor, testBit_255 b' hb', shiftLeft_one_testBit b b' h]

lemma and_mask_testBit_self (v b : ℕ) (hb : b < 8) :
    (v &&& (0xff ^^^ 1 <<< b)).testBit b = false := by
  simp [Nat.testBit_and, mask_testBit_self b hb]

lemma and_mask_testBit_other (v b b' : ℕ) (hv : v < 256) (h : b' ≠ b) :
    (v &&& (0xff ^^^ 1 <<< b)).testBit b' = v.testBit b' := by
  by_cases hb' : b' < 8
  · simp [Nat.testBit_and, mask_testBit_other b b' hb' h]
  · have h1 : v.testBit b' = false :=
      Nat.testBit_lt_two_pow (lt_of_lt_of_le hv (by
        calc (256 : ℕ) = 2 ^ 8 := by norm_num
        _ ≤ 2 ^ b' := Nat.pow_le_pow_right (by norm_num) (by omega)))
    have h2 : v &&& (0xff ^^^ 1 <<< b) ≤ v := Nat.and_le_left
    have h3 : (v &&& (0xff ^^^ 1 <<< b)).testBit b' = false :=
      Nat.testBit_lt_two_pow (lt_of_le_of_lt h2 (lt_of_lt_of_le hv (by
        calc (256 : ℕ) = 2 ^ 8 := by norm_num
        _ ≤ 2 ^ b' := Nat.pow_le_pow_right (by norm_num) (by omega))))
    rw [h1, h3]

/-- Claim C6: `SetPixel` and `ClearPixel` reduce the coordinates to
`x mod 128` and `y mod 64` by bitmasking (total functions, never rejecting),
then set or clear exactly one bit, bit `y mod 8` of the byte at index
`(y mod 64) / 8 * 128 + x mod 128 + 1`, leaving every other byte unchanged.
The hypothesis that the stored byte is below 256 is the `u8` storage type of
the C++ framebuffer. -/
theorem C6_pixel_addressing (fb : Framebuffer) (pX pY : ℕ)
    (hv : fb (pixelIndex pX pY) < 256) :
    (setPixel fb pX pY (pixelIndex pX pY)
        = fb (pixelIndex pX pY) ||| 1 <<< (pY % 8))
    ∧ (setPixel fb pX pY (pixelIndex pX pY)).testBit (pY % 8) = true
    ∧ (∀ b, b ≠ pY % 8 →
        (setPixel fb pX pY (pixelIndex pX pY)).testBit b
          = (fb (pixelIndex pX pY)).testBit b)
    ∧ (∀ j, j ≠ pixelIndex pX pY → setPixel fb pX pY j = fb j)
    ∧ (clearPixel fb pX pY (pixelIndex pX pY)).testBit (pY % 8) = false
    ∧ (∀ b, b ≠ pY % 8 →
        (clearPixel fb pX pY (pixelIndex pX pY)).testBit b
          = (fb (pixelIndex pX pY)).testBit b)
    ∧ (∀ j, j ≠ pixelIndex pX pY → clearPixel fb pX pY j = fb j) := by
  have hb : pY % 8 < 8 := Nat.mod_lt _ (by norm_num)
  rw [setPixel_eq, clearPixel_eq]
  refine ⟨fbWrite_self _ _ _, ?_, ?_, ?_, ?_, ?_, ?_⟩
  · rw [fbWrite_self]; exact or_bit_testBit_self _ _
  · intro b hbne; rw [fbWrite_self]; exact or_bit_testBit_other _ _ _ hbne
  · intro j hj; exact fbWrite_other _ _ _ _ hj
  · rw [fbWrite_self]; exact and_mask_testBit_self _ _ hb
  · intro b hbne; rw [fbWrite_self]; exact and_mask_testBit_other _ _ _ hv hbne
  · intro j hj; exact fbWrite_other _ _ _ _ hj

/-- Witness for C6 at a concrete input: framebuffer all zero, pixel (5, 13)
lands in byte `1 * 128 + 5 + 1 = 134` with bit `13 mod 8 = 5` set. -/
theorem C6_pixel_addressing_witness :
    setPixel (fun _ => 0) 5 13 134 = 32 := by
  have h := (C6_pixel_addressing (fun _ => 0) 5 13 (by norm_num)).1
  have hidx : pixelIndex 5 13 = 134 := by decide
  rw [hidx] at h
  simpa using h

lemma or_bit_lt_256 (v b : ℕ) (hv : v < 256) (hb : b < 8) :
    v ||| 1 <<< b < 256 := by
  have h1 : (1 <<< b) < 256 := by
    rw [Nat.shiftLeft_eq, one_mul]
    calc 2 ^ b < 2 ^ 8 := Nat.pow_lt_pow_right (by norm_num) hb
    _ = 256 := by norm_num
  calc v ||| 1 <<< b < 2 ^ 8 := Nat.or_lt_two_pow (by norm_num [hv]) (by norm_num [h1])
  _ = 256 := by norm_num

lemma restore_byte (v b : ℕ) (hv : v < 256) (hb : b < 8)
    (hfree : v.testBit b = false) :
    (v ||| 1 <<< b) &&& (0xff ^^^ 1 <<< b) = v := by
  apply Nat.eq_of_testBit_eq
  intro b'
  by_cases hbb : b' = b
  · subst hbb
    rw [and_mask_testBit_self _ _ hb, hfree]
  · rw [and_mask_testBit_other _ _ _ (or_bit_lt_256 v b hv hb) hbb,
      or_bit_testBit_other _ _ _ hbb]

lemma or_bit_and_mask (v b : ℕ) (hb : b < 8) :
    (v ||| 1 <<< b) &&& (0xff ^^^ 1 <<< b) = v &&& (0xff ^^^ 1 <<< b) := by
  apply Nat.eq_of_testBit_eq
  intro b'
  by_cases hbb : b' = b
  · subst hbb
    rw [and_mask_testBit_self _ _ hb, and_mask_testBit_self _ _ hb]
  · rw [Nat.testBit_and, Nat.testBit_and, or_bit_testBit_other _ _ _ hbb]

/-- Claim C4 (amended): `SetPixel` is idempotent, for every framebuffer and
coordinates; `SetPixel(x, y)` followed by `ClearPixel(x, y)` always equals
`ClearPixel(x, y)` on the original framebuffer — so the round trip leaves
the already-lit pixel cleared — and consequently restores the framebuffer
byte exactly when the addressed pixel was clear beforehand (the stored byte
being a `u8`, below 256). -/
theorem C4_set_clear_roundtrip (fb : Framebuffer) (pX pY : ℕ) :
    setPixel (setPixel fb pX pY) pX pY = setPixel fb pX pY
    ∧ clearPixel (setPixel fb pX pY) pX pY = clearPixel fb pX pY
    ∧ (fb (pixelIndex pX pY) < 256 →
        (fb (pixelIndex pX pY)).testBit (pY % 8) = false →
          clearPixel (setPixel fb pX pY) pX pY = fb) := by
  refine ⟨?_, ?_, ?_⟩
  · rw [setPixel_eq, setPixel_eq]
    funext j
    by_cases hj : j = pixelIndex pX pY
    · subst hj
      rw [fbWrite_self, fbWrite_self, Nat.or_assoc, Nat.or_self]
    · simp [fbWrite, hj]
  · rw [setPixel_eq, clearPixel_eq, clearPixel_eq]
    funext j
    by_cases hj : j = pixelIndex pX pY
    · subst hj
      rw [fbWrite_self, fbWrite_self, fbWrite_self]
      exact or_bit_and_mask _ _ (Nat.mod_lt _ (by norm_num))
    · simp [fbWrite, hj]
  · intro hv hfree
    rw [setPixel_eq, clearPixel_eq]
    funext j
    by_cases hj : j = pixelIndex pX pY
    · subst hj
      rw [fbWrite_self, fbWrite_self]
      exact restore_byte _ _ hv (Nat.mod_lt _ (by norm_num)) hfree
    · simp [fbWrite, hj]

/-- Witness for the amended C4: on an all-zero framebuffer double set at
(3, 9) equals single set on byte 132, the set/clear round trip equals a
plain clear there, and (the byte being 0, below 256, with the bit clear)
the round trip is the identity on byte 132. -/
theorem C4_set_clear_roundtrip_witness :
    setPixel (setPixel (fun _ => 0) 3 9) 3 9 132
        = setPixel (fun _ => 0) 3 9 132
    ∧ clearPixel (setPixel (fun _ => 0) 3 9) 3 9 132
        = clearPixel (fun _ => 0) 3 9 132
    ∧ clearPixel (setPixel (fun _ => 0) 3 9) 3 9 132 = 0 := by
  have h := C4_set_clear_roundtrip (fun _ => 0) 3 9
  exact ⟨congrFun h.1 132, congrFun h.2.1 132,
    congrFun (h.2.2 (by norm_num) (by decide)) 132⟩

/-- Counterexample to C4 as stated: with the byte at the pixel location
already 0xff (pixel lit), setting then clearing pixel (0, 0) leaves byte 1
at 0xfe, not its previous value 0xff. -/
theorem C4_counterexample :
    clearPixel (setPixel (fun _ => 0xff) 0 0) 0 0 1 = 0xfe
    ∧ (fun _ => 0xff : Framebuffer) 1 = 0xff := by
  constructor
  · decide
  · rfl

/-- One glyph of the source font: row index (0-7) to row byte.  `CharData` is
`u8[8]` in src/ssd1306.cpp:34; the actual table lives in font6x8.h, outside
src/, and per the specification only the lower 6 bits of each row byte are
meaningful (glyphs are 6 pixels wide), which is the hypothesis of the
round-trip theorem. -/
def CharData : Type := ℕ → ℕ

/-- `SingleColumn` (src/ssd1306.cpp:37-46): bit `i` of column `j` is bit
`5 - j` of source row `i`. -/
def singleColumn (c : CharData) (col : ℕ) : ℕ :=
  (List.range 8).foldl (fun acc i => acc ||| (((c i >>> (5 - col)) &&& 1) <<< i)) 0

/-- `DoubleColumn` (src/ssd1306.cpp:49-61): the C++ `bool bit` is the
extracted bit as 0 or 1, placed at output rows `2i` and `2i + 1`. -/
def doubleColumn (c : CharData) (col : ℕ) : ℕ :=
  (List.range 8).foldl
    (fun acc i =>
      acc ||| ((((singleColumn c col >>> i) &&& 1) <<< (i * 2)) |||
        (((singleColumn c col >>> i) &&& 1) <<< (i * 2 + 1)))) 0

/-- Modelled from the spec: the re-transposition that reads a column table
back in row-major form, row `i` bit `5 - j` taken from bit `i` of column `j`.
This is the inverse reading the round-trip claim compares against. -/
def retransposedRow (cols : ℕ → ℕ) (i : ℕ) : ℕ :=
  (List.range 6).foldl (fun acc j => acc ||| (((cols j >>> i) &&& 1) <<< (5 - j))) 0

lemma extract_testBit (x n m : ℕ) :
    ((x >>> n) &&& 1).testBit m = (decide (m = 0) && x.testBit n) := by
  cases m with
  | zero =>
    simp [Nat.testBit_and, Nat.testBit_shiftRight]
  | succ k =>
    have h : (x >>> n) &&& 1 < 2 ^ (k + 1) := by
      have h1 : (x >>> n) &&& 1 ≤ 1 := Nat.and_le_right
      have h2 : (1 : ℕ) < 2 ^ (k + 1) := Nat.one_lt_two_pow (by omega)
      omega
    rw [Nat.testBit_lt_two_pow h]
    simp

lemma range8_or (f : ℕ → ℕ) :
    (List.range 8).foldl (fun acc i => acc ||| f i) 0 =
      0 ||| f 0 ||| f 1 ||| f 2 ||| f 3 ||| f 4 ||| f 5 ||| f 6 ||| f 7 := rfl

lemma range6_or (f : ℕ → ℕ) :
    (List.range 6).foldl (fun acc j => acc ||| f j) 0 =
      0 ||| f 0 ||| f 1 ||| f 2 ||| f 3 ||| f 4 ||| f 5 := rfl

lemma singleColumn_testBit (c : CharData) (j i : ℕ) (hi : i < 8) :
    (singleColumn c j).testBit i = (c i).testBit (5 - j) := by
  rw [singleColumn, range8_or]
  simp only [Nat.testBit_or, Nat.testBit_shiftLeft, extract_testBit,
    Nat.zero_testBit]
  interval_cases i <;> simp

lemma singleColumn_lt_256 (c : CharData) (j : ℕ) : singleColumn c j < 256 := by
  have hterm : ∀ i, i < 8 → ((c i >>> (5 - j)) &&& 1) <<< i < 256 := by
    intro i hi
    have h1 : (c i >>> (5 - j)) &&& 1 ≤ 1 := Nat.and_le_right
    have h2 : ((c i >>> (5 - j)) &&& 1) <<< i ≤ 1 <<< i := by
      simp only [Nat.shiftLeft_eq]
      exact Nat.mul_le_mul_right _ h1
    have h3 : (1 : ℕ) <<< i < 256 := by
      rw [Nat.shiftLeft_eq, one_mul]
      calc 2 ^ i < 2 ^ 8 := Nat.pow_lt_pow_right (by norm_num) hi
      _ = 256 := by norm_num
    omega
  rw [singleColumn, range8_or]
  have h256 : (256 : ℕ) = 2 ^ 8 := by norm_num
  rw [h256]
  refine Nat.or_lt_two_pow ?_ (h256 ▸ hterm 7 (by norm_num))
  refine Nat.or_lt_two_pow ?_ (h256 ▸ hterm 6 (by norm_num))
  refine Nat.or_lt_two_pow ?_ (h256 ▸ hterm 5 (by norm_num))
  refine Nat.or_lt_two_pow ?_ (h256 ▸ hterm 4 (by norm_num))
  refine Nat.or_lt_two_pow ?_ (h256 ▸ hterm 3 (by norm_num))
  refine Nat.or_lt_two_pow ?_ (h256 ▸ hterm 2 (by norm_num))
  refine Nat.or_lt_two_pow ?_ (h256 ▸ hterm 1 (by norm_num))
  exact Nat.or_lt_two_pow (by norm_num) (h256 ▸ hterm 0 (by norm_num))

lemma retransposedRow_lt_64 (cols : ℕ → ℕ) (i : ℕ) : retransposedRow cols i < 64 := by
  have hterm : ∀ j, j < 6 → ((cols j >>> i) &&& 1) <<< (5 - j) < 64 := by
    intro j hj
    have h1 : (cols j >>> i) &&& 1 ≤ 1 := Nat.and_le_right
    have h2 : ((cols j >>> i) &&& 1) <<< (5 - j) ≤ 1 <<< (5 - j) := by
      simp only [Nat.shiftLeft_eq]
      exact Nat.mul_le_mul_right _ h1
    have h3 : (1 : ℕ) <<< (5 - j) < 64 := by
      rw [Nat.shiftLeft_eq, one_mul]
      calc 2 ^ (5 - j) < 2 ^ 6 := Nat.pow_lt_pow_right (by norm_num) (by omega)
      _ = 64 := by norm_num
    omega
  rw [retransposedRow, range6_or]
  have h64 : (64 : ℕ) = 2 ^ 6 := by norm_num
  rw [h64]
  refine Nat.or_lt_two_pow ?_ (h64 ▸ hterm 5 (by norm_num))
  refine Nat.or_lt_two_pow ?_ (h64 ▸ hterm 4 (by norm_num))
  refine Nat.or_lt_two_pow ?_ (h64 ▸ hterm 3 (by norm_num))
  refine Nat.or_lt_two_pow ?_ (h64 ▸ hterm 2 (by norm_num))
  refine Nat.or_lt_two_pow ?_ (h64 ▸ hterm 1 (by norm_num))
  exact Nat.or_lt_two_pow (by norm_num) (h64 ▸ hterm 0 (by norm_num))

lemma retransposedRow_testBit_lt6 (cols : ℕ → ℕ) (i b : ℕ) (hb : b < 6) :
    (retransposedRow cols i).testBit b = (cols (5 - b)).testBit i := by
  rw [retransposedRow, range6_or]
  simp only [Nat.testBit_or, Nat.testBit_shiftLeft, extract_testBit,
    Nat.zero_testBit]
  interval_cases b <;> simp

lemma doubleColumn_testBit (c : CharData) (j b : ℕ) (hb : b < 16) :
    (doubleColumn c j).testBit b = (singleColumn c j).testBit (b / 2) := by
  rw [doubleColumn, range8_or]
  simp only [Nat.testBit_or, Nat.testBit_shiftLeft, extract_testBit,
    Nat.zero_testBit]
  interval_cases b <;> simp

/-- Claim C5: for every glyph whose rows use only the low 6 bits (the shape
of the font catalog, per the specification), re-transposing the derived
single-height column table reproduces the original 8-row bitmap bit for bit,
and in the derived double-height table bits `2r` and `2r + 1` of each column
both equal bit `r` of the corresponding single-height column. -/
theorem C5_font_roundtrip (c : CharData) (hc : ∀ i, i < 8 → c i < 64) :
    (∀ i, i < 8 → retransposedRow (fun j => singleColumn c j) i = c i)
    ∧ (∀ j r, r < 8 →
        (doubleColumn c j).testBit (2 * r) = (singleColumn c j).testBit r
        ∧ (doubleColumn c j).testBit (2 * r + 1) = (singleColumn c j).testBit r) := by
  constructor
  · intro i hi
    apply Nat.eq_of_testBit_eq
    intro b
    by_cases hb : b < 6
    · rw [retransposedRow_testBit_lt6 _ _ _ hb,
        singleColumn_testBit c (5 - b) i hi]
      congr 1
      omega
    · have hL : (retransposedRow (fun j => singleColumn c j) i).testBit b = false :=
        Nat.testBit_lt_two_pow (lt_of_lt_of_le (retransposedRow_lt_64 _ _) (by
          calc (64 : ℕ) = 2 ^ 6 := by norm_num
          _ ≤ 2 ^ b := Nat.pow_le_pow_right (by norm_num) (by omega)))
      have hR : (c i).testBit b = false :=
        Nat.testBit_lt_two_pow (lt_of_lt_of_le (hc i hi) (by
          calc (64 : ℕ) = 2 ^ 6 := by norm_num
          _ ≤ 2 ^ b := Nat.pow_le_pow_right (by norm_num) (by omega)))
      rw [hL, hR]
  · intro j r hr
    constructor
    · rw [doubleColumn_testBit c j (2 * r) (by omega)]
      congr 1
      omega
    · rw [doubleColumn_testBit c j (2 * r + 1) (by omega)]
      congr 1
      omega

/-- A concrete glyph with 6-bit rows (the shape of every font6x8.h entry);
used to witness C5. -/
def sampleGlyph : CharData := fun i => [0x00, 0x1C, 0x22, 0x2A, 0x22, 0x1C, 0x00, 0x00].getD i 0

/-- Witness for C5 at the concrete glyph: round trip of row 3 and the
double-height bit duplication of row 3 in column 2. -/
theorem C5_font_roundtrip_witness :
    retransposedRow (fun j => singleColumn sampleGlyph j) 3 = sampleGlyph 3
    ∧ (doubleColumn sampleGlyph 2).testBit 6 = (singleColumn sampleGlyph 2).testBit 3
    ∧ (doubleColumn sampleGlyph 2).testBit 7 = (singleColumn sampleGlyph 2).testBit 3 := by
  have h := C5_font_roundtrip sampleGlyph (by decide)
  exact ⟨h.1 3 (by norm_num), (h.2 2 3 (by norm_num)).1, (h.2 2 3 (by norm_num)).2⟩

/-- `CSSD1306::InitSequence` (src/ssd1306.cpp:94-133), the command script sent
during initialization. -/
def InitSequence : List ℕ :=
  [0xAE, 0x81, 0x7F, 0xA6, 0x20, 0x00, 0x21, 0x00, 0x7F, 0x22, 0x00, 0x03,
   0xA1, 0xA8, 0x1F, 0xC8, 0xD3, 0x00, 0xDA, 0x02, 0xD5, 0x80, 0xD9, 0x22,
   0xDB, 0x20, 0x8D, 0x14, 0xA4, 0xAF]

/-- `CSSD1306::Initialize` (src/ssd1306.cpp:150-165) over an abstract bus.
`wr` is the I2C master Write call, taking the bus state and the bytes of one
transaction and returning the new bus state with a success flag.  The C++
loop sends each command prefixed by the 0x80 control byte and discards the
return value of Write (the `.1` projection below); the method returns `true`
whenever the height is supported, and `false` otherwise before any write. -/
def initDisplay {β : Type} (wr : β → List ℕ → β × Bool) (bus : β) (height : ℕ) :
    β × Bool :=
  if height = 32 ∨ height = 64 then
    (InitSequence.foldl (fun b cmd => (wr b [0x80, cmd]).1) bus, true)
  else (bus, false)

/-- Counterexample to claim C1: against a bus whose every write fails (and
which counts the writes made), initialization with the supported height 32
still returns success; all 30 command writes were attempted and every one of
them failed. -/
theorem C1_counterexample :
    (initDisplay (fun (n : ℕ) (_ : List ℕ) => (n + 1, false)) 0 32).2 = true
    ∧ (initDisplay (fun (n : ℕ) (_ : List ℕ) => (n + 1, false)) 0 32).1 = 30 := by
  constructor
  · rfl
  · rfl

/-- Claim C1 (amended): the boolean result of initialization depends only on
the height: it is `true` exactly when the height is 32 or 64, for every bus
behaviour, because the return value of each bus write is discarded. -/
theorem C1_initDisplay_ignores_bus {β : Type} (wr : β → List ℕ → β × Bool)
    (bus : β) (height : ℕ) :
    (initDisplay wr bus height).2 = decide (height = 32 ∨ height = 64) := by
  unfold initDisplay
  split
  · simp [*]
  · simp [*]

/-- The per-part level-meter state: current bar level, peak-hold level and
peak-hold timer (`mPartLevels[i]`, `mPeakLevels[i]`, `mPeakTimes[i]`).  The
fields are bytes in the C++ (declared in the header, outside src/); levels
and peaks only ever get overwritten or decremented toward zero, so naturals
model them exactly, while the timer decrement underflows and is modelled
modulo 256. -/
structure PartState where
  level : ℕ
  peak : ℕ
  time : ℕ
deriving DecidableEq

/-- One loop iteration of `CSSD1306::UpdatePartLevels` (src/ssd1306.cpp:243-270)
for a single part.  `active` is bit `i` of the synth part-state mask.
`sampled` is the u8 level stored when the part is active: the C++ computes
`floor(VelocityScale * GetVelocityForPart(i)) + 0.5f` and truncates it into a
`u8`; the scale constant and the velocity accessor live outside this
translation unit, so the sampled value is a parameter of the step. -/
def updatePart (active : Bool) (sampled : ℕ) (s : PartState) : PartState :=
  if active then
    if sampled > s.peak then ⟨sampled, sampled, 100⟩
    else ⟨sampled, s.peak, s.time⟩
  else
    let l := if s.level > 0 then s.level - 1 else s.level
    if s.time = 0 ∧ s.peak > 0 then ⟨l, s.peak - 1, 3⟩
    else ⟨l, s.peak, (s.time + 255) % 256⟩

/-- The inactive-part step (bit clear in the part-state mask; the sampled
level is not read on this path). -/
def inact : PartState → PartState := updatePart false 0

lemma inact_eq (s : PartState) :
    inact s = if s.time = 0 ∧ s.peak > 0
      then ⟨s.level - 1, s.peak - 1, 3⟩
      else ⟨s.level - 1, s.peak, (s.time + 255) % 256⟩ := by
  unfold inact updatePart
  have hl : (if s.level > 0 then s.level - 1 else s.level) = s.level - 1 := by
    split <;> omega
  simp only [Bool.false_eq_true, if_false, hl]

lemma inact_level (s : PartState) : (inact s).level = s.level - 1 := by
  rw [inact_eq]
  split <;> rfl

lemma iterate_inact_level (s : PartState) (n : ℕ) :
    (inact^[n] s).level = s.level - n := by
  induction n generalizing s with
  | zero => simp
  | succ k ih =>
    rw [Function.iterate_succ_apply, ih, inact_level]
    omega

lemma inact_hold (s : PartState) (ht : s.time ≠ 0) :
    inact s = ⟨s.level - 1, s.peak, (s.time + 255) % 256⟩ := by
  rw [inact_eq, if_neg (fun hc => ht hc.1)]

lemma inact_decrement (s : PartState) (ht : s.time = 0) (hp : 0 < s.peak) :
    inact s = ⟨s.level - 1, s.peak - 1, 3⟩ := by
  rw [inact_eq, if_pos ⟨ht, hp⟩]

lemma phase1 (L : ℕ) (n : ℕ) (hn : n ≤ 100) :
    inact^[n] ⟨L, L, 100⟩ = ⟨L - n, L, 100 - n⟩ := by
  induction n with
  | zero => simp
  | succ k ih =>
    rw [Function.iterate_succ_apply', ih (by omega),
      inact_hold ⟨L - k, L, 100 - k⟩ (by show ¬(100 - k = 0); omega)]
    have e1 : L - k - 1 = L - (k + 1) := by omega
    have e2 : (100 - k + 255) % 256 = 100 - (k + 1) := by omega
    simp only [e1, e2]

lemma cycle4 (l p : ℕ) (hp : 0 < p) :
    inact^[4] ⟨l, p, 0⟩ = ⟨l - 4, p - 1, 0⟩ := by
  have h1 : inact ⟨l, p, 0⟩ = ⟨l - 1, p - 1, 3⟩ := inact_decrement _ rfl hp
  have h2 : inact ⟨l - 1, p - 1, 3⟩ = ⟨l - 1 - 1, p - 1, 2⟩ := by
    rw [inact_hold _ (by show ¬(3 = 0); omega)]
    simp
  have h3 : inact ⟨l - 1 - 1, p - 1, 2⟩ = ⟨l - 1 - 1 - 1, p - 1, 1⟩ := by
    rw [inact_hold _ (by show ¬(2 = 0); omega)]
    simp
  have h4 : inact ⟨l - 1 - 1 - 1, p - 1, 1⟩ = ⟨l - 1 - 1 - 1 - 1, p - 1, 0⟩ := by
    rw [inact_hold _ (by show ¬(1 = 0); omega)]
    simp
  have hiter : inact^[4] (⟨l, p, 0⟩ : PartState)
      = inact (inact (inact (inact ⟨l, p, 0⟩))) := by
    simp only [show (4 : ℕ) = 1 + 1 + 1 + 1 from rfl,
      Function.iterate_succ_apply, Function.iterate_one,
      Function.iterate_zero_apply]
  rw [hiter, h1, h2, h3, h4]
  have e1 : l - 1 - 1 - 1 - 1 = l - 4 := by omega
  simp only [e1]

lemma cycles (k : ℕ) : ∀ l p, k ≤ p →
    inact^[4 * k] ⟨l, p, 0⟩ = ⟨l - 4 * k, p - k, 0⟩ := by
  induction k with
  | zero => intro l p _; simp
  | succ j ih =>
    intro l p hk
    rw [show 4 * (j + 1) = 4 * j + 4 from by omega,
      Function.iterate_add_apply, cycle4 l p (by omega),
      ih (l - 4) (p - 1) (by omega)]
    have e1 : l - 4 - 4 * j = l - (4 * j + 4) := by omega
    have e2 : p - 1 - j = p - (j + 1) := by omega
    simp only [e1, e2]

lemma peak_small_steps (l p r : ℕ) (hp : 0 < p) (hr1 : 1 ≤ r) (hr4 : r ≤ 4) :
    (inact^[r] ⟨l, p, 0⟩).peak = p - 1 := by
  have h1 : inact ⟨l, p, 0⟩ = ⟨l - 1, p - 1, 3⟩ := inact_decrement _ rfl hp
  have h2 : inact ⟨l - 1, p - 1, 3⟩ = ⟨l - 1 - 1, p - 1, 2⟩ := by
    rw [inact_hold _ (by show ¬(3 = 0); omega)]
    simp
  have h3 : inact ⟨l - 1 - 1, p - 1, 2⟩ = ⟨l - 1 - 1 - 1, p - 1, 1⟩ := by
    rw [inact_hold _ (by show ¬(2 = 0); omega)]
    simp
  interval_cases r
  · rw [Function.iterate_one, h1]
  · rw [show (2 : ℕ) = 1 + 1 from rfl, Function.iterate_succ_apply,
      Function.iterate_one, h1, h2]
  · rw [show (3 : ℕ) = 1 + 1 + 1 from rfl, Function.iterate_succ_apply,
      Function.iterate_succ_apply, Function.iterate_one, h1, h2, h3]
  · rw [cycle4 l p hp]

lemma peak_zero_stays (s : PartState) (hp : s.peak = 0) (j : ℕ) :
    (inact^[j] s).peak = 0 := by
  induction j generalizing s with
  | zero => simpa
  | succ k ih =>
    rw [Function.iterate_succ_apply]
    apply ih
    rw [inact_eq, if_neg (by omega)]
    exact hp

/-- Claim C2 (amended): a part active with sampled level `L` for one tick and
inactive thereafter has its level decrease by exactly 1 per tick until it
reaches 0 and stays 0; its peak stays at `L` for exactly 100 inactive ticks,
and thereafter decreases by 1 every FOUR ticks (a decrement tick followed by
a three-tick reload of the peak timer) until it reaches 0 and stays 0 — the
closed form `L - (n - 97) / 4` makes the first peak decrement happen on
inactive tick 101 and each following one four ticks later.  The bound
`L ≤ 255` is the u8 storage of the level. -/
theorem C2_meter_decay (L : ℕ) (h0 : 0 < L) (_h255 : L ≤ 255) :
    (∀ n, (inact^[n] (updatePart true L ⟨0, 0, 0⟩)).level = L - n)
    ∧ (∀ n, n ≤ 100 → (inact^[n] (updatePart true L ⟨0, 0, 0⟩)).peak = L)
    ∧ (∀ n, 100 < n →
        (inact^[n] (updatePart true L ⟨0, 0, 0⟩)).peak = L - (n - 97) / 4) := by
  have hs0 : updatePart true L ⟨0, 0, 0⟩ = ⟨L, L, 100⟩ := by
    unfold updatePart
    simp [h0]
  rw [hs0]
  refine ⟨?_, ?_, ?_⟩
  · intro n
    rw [iterate_inact_level]
  · intro n hn
    rw [phase1 L n hn]
  · intro n hn
    by_cases hk : (n - 101) / 4 + 1 ≤ L
    · set k := (n - 101) / 4 with hkdef
      have hstate : inact^[4 * k + 100] (⟨L, L, 100⟩ : PartState)
          = ⟨L - 100 - 4 * k, L - k, 0⟩ := by
        rw [Function.iterate_add_apply, phase1 L 100 le_rfl]
        simpa using cycles k (L - 100) L (by omega)
      have key : (inact^[n] (⟨L, L, 100⟩ : PartState)).peak = L - k - 1 := by
        rw [show n = (n - (100 + 4 * k)) + (4 * k + 100) from by omega,
          Function.iterate_add_apply, hstate]
        exact peak_small_steps _ _ _ (by omega) (by omega) (by omega)
      rw [key]
      omega
    · have hstate : inact^[4 * L + 100] (⟨L, L, 100⟩ : PartState)
          = ⟨L - 100 - 4 * L, 0, 0⟩ := by
        rw [Function.iterate_add_apply, phase1 L 100 le_rfl]
        simpa using cycles L (L - 100) L le_rfl
      have key : (inact^[n] (⟨L, L, 100⟩ : PartState)).peak = 0 := by
        rw [show n = (n - (100 + 4 * L)) + (4 * L + 100) from by omega,
          Function.iterate_add_apply, hstate]
        exact peak_zero_stays _ rfl _
      rw [key]
      omega

/-- Witness for the amended C2 at sampled level 10: level after 7 inactive
ticks is 3; peak still 10 at inactive tick 100; peak 8 at inactive tick 105
(two four-tick decay periods elapsed). -/
theorem C2_meter_decay_witness :
    (inact^[7] (updatePart true 10 ⟨0, 0, 0⟩)).level = 3
    ∧ (inact^[100] (updatePart true 10 ⟨0, 0, 0⟩)).peak = 10
    ∧ (inact^[105] (updatePart true 10 ⟨0, 0, 0⟩)).peak = 8 := by
  have h := C2_meter_decay 10 (by norm_num) (by norm_num)
  exact ⟨h.1 7, h.2.1 100 (by norm_num), h.2.2 105 (by norm_num)⟩

set_option maxRecDepth 4096 in
/-- Counterexample to C2 as stated: with sampled level 16, after 112 inactive
ticks the code has decremented the peak three times (on inactive ticks 101,
105 and 109), giving peak 13; a peak decaying by 1 every 3 ticks once the
100-tick hold expires would be at `16 - (112 - 100) / 3 = 12` by then. -/
theorem C2_counterexample :
    (inact^[112] (updatePart true 16 ⟨0, 0, 0⟩)).peak = 13
    ∧ (inact^[112] (updatePart true 16 ⟨0, 0, 0⟩)).peak ≠ 16 - (112 - 100) / 3 := by
  constructor
  · decide
  · decide

/-- Claim C10: on an inactive tick with peak 0 the peak-hold timer is still
decremented with no floor: the stored timer becomes `(time + 255) mod 256`
(u8 wraparound; the timer field is a byte declared in the header), so a timer
of 0 wraps to 255 instead of holding at 0. -/
theorem C10_timer_wraparound (s : PartState) (sampled : ℕ) (hp : s.peak = 0) :
    (updatePart false sampled s).time = (s.time + 255) % 256
    ∧ (s.time = 0 → (updatePart false sampled s).time = 255) := by
  have h : (updatePart false sampled s).time = (s.time + 255) % 256 := by
    unfold updatePart
    rw [if_neg (by simp), if_neg (by omega)]
  refine ⟨h, fun ht => ?_⟩
  rw [h, ht]

/-- Witness for C10: from peak 0 and timer 0, one inactive tick leaves the
timer at 255. -/
theorem C10_timer_wraparound_witness :
    (updatePart false 0 ⟨0, 0, 0⟩).time = 255 :=
  (C10_timer_wraparound ⟨0, 0, 0⟩ 0 rfl).2 rfl

/-- The character loop of `CSSD1306::Print` (src/ssd1306.cpp:305-309) as the
list of character draw calls it makes (glyph code, cell x, cell y), in order:
glyphs are drawn from the C string while characters remain and the cursor is
below the 20-cell row width.  The C string is the list of its (nonzero)
character codes. -/
def printLoopCalls : List ℕ → ℕ → ℕ → List (ℕ × ℕ × ℕ)
  | [], _, _ => []
  | ch :: rest, x, y =>
    if x < 20 then (ch, x, y) :: printLoopCalls rest (x + 1) y else []

/-- The cursor position after the character loop of `CSSD1306::Print`
(the value of `pCursorX` when the first while loop exits). -/
def printLoopCursor : List ℕ → ℕ → ℕ
  | [], x => x
  | _ :: rest, x => if x < 20 then printLoopCursor rest (x + 1) else x

/-- The clear loop of `CSSD1306::Print` (src/ssd1306.cpp:311-315): space
glyphs from the current cursor to the end of the 20-cell row. -/
def clearLoop (x y : ℕ) : List (ℕ × ℕ × ℕ) :=
  if h : x < 20 then (0x20, x, y) :: clearLoop (x + 1) y else []
termination_by 20 - x
decreasing_by omega

/-- `CSSD1306::Print` (src/ssd1306.cpp:303-319) as its list of character draw
calls: the text loop, then, when `pClearLine` is set, spaces to the end of the
row.  (The optional immediate transfer does not change framebuffer content.) -/
def printCalls (text : List ℕ) (x y : ℕ) (clearLine : Bool) : List (ℕ × ℕ × ℕ) :=
  printLoopCalls text x y ++
    if clearLine then clearLoop (printLoopCursor text x) y else []

/-- The `sprintf(buf, "|vol:%3d", v)` text of src/ssd1306.cpp:239: a pipe,
`vol:`, then the volume right-justified in three columns, space padded
(volumes are 0-100 in this driver).  Codes are ASCII. -/
def volText (v : ℕ) : List ℕ :=
  [0x7C, 0x76, 0x6F, 0x6C, 0x3A] ++
    (if v < 10 then [0x20, 0x20, 0x30 + v]
     else if v < 100 then [0x20, 0x30 + v / 10, 0x30 + v % 10]
     else [0x30 + v / 100, 0x30 + v / 10 % 10, 0x30 + v % 10])

/-- `CSSD1306::DrawStatusLine` (src/ssd1306.cpp:219-241) as the list of
character draw calls it makes.  When the message flag is set it bails out
without drawing.  Otherwise: the first five parts are drawn at cursor
`i * 2` (a filled 0x80 block when bit `i` of the part-state mask is set,
else the digit character `0x31 + i`); the rhythm indicator at cursor 10
tests the whole shifted value `partStates >> 8`; the volume text prints from
cursor 12. -/
def drawStatusLine (messageFlag : Bool) (partStates vol : ℕ) : List (ℕ × ℕ × ℕ) :=
  if messageFlag then []
  else
    ((List.range 5).map fun i =>
      (if (partStates >>> i) &&& 1 = 1 then 0x80 else 0x31 + i, i * 2, 0))
    ++ [(if partStates >>> 8 ≠ 0 then 0x80 else 0x52, 10, 0)]
    ++ printCalls (volText vol) 12 0 false

/-- Claim C3 (amended): with exactly channels 0 and 2 active (mask 5) and
master volume 75, the status line draws the block glyph 0x80 at cells 0 and
4, the digits 2, 4, 5 (0x32, 0x34, 0x35) at cells 2, 6 and 8, the letter R
(0x52) at cell 10, and the text `|vol: 75` at cells 12-19, all on row 0. -/
theorem C3_status_line_cells :
    drawStatusLine false 5 75 =
      [(0x80, 0, 0), (0x32, 2, 0), (0x80, 4, 0), (0x34, 6, 0), (0x35, 8, 0),
       (0x52, 10, 0), (0x7C, 12, 0), (0x76, 13, 0), (0x6F, 14, 0),
       (0x6C, 15, 0), (0x3A, 16, 0), (0x20, 17, 0), (0x37, 18, 0),
       (0x35, 19, 0)] := by
  rfl

/-- Counterexample to C3 as stated: in that same scenario the only call at
cell 2 draws the digit 2 (0x32), not the block glyph 0x80 that the claim
places there, and no character at all is drawn at cell 1 where the claim
places the digit 2. -/
theorem C3_counterexample :
    ((drawStatusLine false 5 75).filter (fun c => c.2.1 == 2) = [(0x32, 2, 0)])
    ∧ ((drawStatusLine false 5 75).filter (fun c => c.2.1 == 1) = []) := by
  constructor
  · rfl
  · rfl

/-- The message-overlay state: `mMessageFlag` and `mMessageText`
(src/ssd1306.cpp:140 and the header). -/
structure OverlayState where
  messageFlag : Bool
  messageText : List ℕ

/-- `CSSD1306::SetMessage` (src/ssd1306.cpp:327-331).  The strncpy truncation
bound is the size of `mMessageText`, declared in the header outside src/, so
the stored text is modelled as the given text. -/
def setMessage (t : List ℕ) (_ : OverlayState) : OverlayState := ⟨true, t⟩

/-- `CSSD1306::ClearMessage` (src/ssd1306.cpp:333-336). -/
def clearMessage (s : OverlayState) : OverlayState := ⟨false, s.messageText⟩

/-- The text-row part of `CSSD1306::Update` (src/ssd1306.cpp:346-349): with a
message active, `Print(mMessageText, 0, 0, true)`; otherwise
`DrawStatusLine` (which reads the same message flag). -/
def updateRow0 (s : OverlayState) (partStates vol : ℕ) : List (ℕ × ℕ × ℕ) :=
  if s.messageFlag then printCalls s.messageText 0 0 true
  else drawStatusLine s.messageFlag partStates vol

lemma clearLoop_spec : ∀ n x y, 20 - x = n →
    clearLoop x y = (List.range n).map (fun k => (0x20, x + k, y)) := by
  intro n
  induction n with
  | zero =>
    intro x y hx
    rw [clearLoop, dif_neg (by omega)]
    simp
  | succ m ih =>
    intro x y hx
    rw [clearLoop, dif_pos (by omega), ih (x + 1) y (by omega),
      List.range_succ_eq_map]
    simp only [List.map_cons, List.map_map, Nat.add_zero]
    have hfg : ((fun k => ((0x20 : ℕ), x + k, y)) ∘ Nat.succ)
        = fun k => ((0x20 : ℕ), x + 1 + k, y) := by
      funext k
      simp only [Function.comp_apply]
      have e1 : x + 1 + k = x + (k + 1) := by omega
      rw [e1]
    rw [hfg]

lemma print_row_spec : ∀ (text : List ℕ) (x y : ℕ), x ≤ 20 →
    printCalls text x y true
      = (List.range (20 - x)).map
          (fun k => (if k < text.length then text.getD k 0 else 0x20, x + k, y)) := by
  intro text
  induction text with
  | nil =>
    intro x y hx
    unfold printCalls
    rw [show printLoopCalls [] x y = [] from rfl,
      show printLoopCursor [] x = x from rfl]
    simp only [List.nil_append, if_true]
    rw [clearLoop_spec (20 - x) x y rfl]
    simp
  | cons ch rest ih =>
    intro x y hx
    by_cases hlt : x < 20
    · have hstep : printCalls (ch :: rest) x y true
          = (ch, x, y) :: printCalls rest (x + 1) y true := by
        unfold printCalls
        rw [show printLoopCalls (ch :: rest) x y
            = if x < 20 then (ch, x, y) :: printLoopCalls rest (x + 1) y else []
          from rfl,
          show printLoopCursor (ch :: rest) x
            = if x < 20 then printLoopCursor rest (x + 1) else x from rfl,
          if_pos hlt, if_pos hlt]
        simp
      rw [hstep, ih (x + 1) y (by omega)]
      rw [show 20 - x = (20 - (x + 1)) + 1 from by omega,
        List.range_succ_eq_map]
      simp only [List.map_cons, List.map_map, Nat.add_zero]
      have hfg : ((fun k => (if k < (ch :: rest).length then (ch :: rest).getD k 0
            else (0x20 : ℕ), x + k, y)) ∘ Nat.succ)
          = fun k => (if k < rest.length then rest.getD k 0
            else (0x20 : ℕ), x + 1 + k, y) := by
        funext k
        simp only [Function.comp_apply, List.length_cons, List.getD_cons_succ]
        have e1 : x + (k + 1) = x + 1 + k := by omega
        have e2 : k.succ < rest.length + 1 ↔ k < rest.length := by omega
        simp only [e1, e2]
      rw [hfg]
      simp
    · have hx20 : x = 20 := by omega
      subst hx20
      have h1 : printCalls (ch :: rest) 20 y true = clearLoop 20 y := rfl
      have h2 : clearLoop 20 y = [] := by
        rw [clearLoop_spec 0 20 y rfl]
        simp
      rw [h1, h2, show 20 - 20 = 0 from rfl]
      simp

/-- Claim C7: while a message is active, the update tick renders the message
text left-justified on the first text row and pads the remainder of the
20-cell row with spaces, and the status line is not drawn at all (the call
list is exactly the 20 message-row calls, independent of the synth state);
after `ClearMessage`, the next update renders the status line again. -/
theorem C7_message_overlay (ov : OverlayState) (partStates vol : ℕ)
    (hm : ov.messageFlag = true) :
    updateRow0 ov partStates vol
      = (List.range 20).map
          (fun k => (if k < ov.messageText.length then ov.messageText.getD k 0
            else 0x20, k, 0))
    ∧ updateRow0 (clearMessage ov) partStates vol
      = drawStatusLine false partStates vol := by
  constructor
  · unfold updateRow0
    rw [if_pos hm, print_row_spec ov.messageText 0 0 (by omega)]
    simp
  · rfl

/-- Witness for C7 with the message `Loading...` (codes below), channels 0
and 2 active and volume 75: the row is the ten message glyphs then ten
spaces, and after `ClearMessage` the update draws the status line. -/
theorem C7_message_overlay_witness :
    updateRow0 ⟨true, [0x4C, 0x6F, 0x61, 0x64, 0x69, 0x6E, 0x67, 0x2E, 0x2E, 0x2E]⟩ 5 75
      = [(0x4C, 0, 0), (0x6F, 1, 0), (0x61, 2, 0), (0x64, 3, 0), (0x69, 4, 0),
         (0x6E, 5, 0), (0x67, 6, 0), (0x2E, 7, 0), (0x2E, 8, 0), (0x2E, 9, 0),
         (0x20, 10, 0), (0x20, 11, 0), (0x20, 12, 0), (0x20, 13, 0),
         (0x20, 14, 0), (0x20, 15, 0), (0x20, 16, 0), (0x20, 17, 0),
         (0x20, 18, 0), (0x20, 19, 0)]
    ∧ updateRow0
        (clearMessage ⟨true, [0x4C, 0x6F, 0x61, 0x64, 0x69, 0x6E, 0x67, 0x2E, 0x2E, 0x2E]⟩)
        5 75
      = drawStatusLine false 5 75 := by
  have h := C7_message_overlay
    ⟨true, [0x4C, 0x6F, 0x61, 0x64, 0x69, 0x6E, 0x67, 0x2E, 0x2E, 0x2E]⟩ 5 75 rfl
  exact ⟨h.1.trans (by rfl), h.2⟩

/-- Apply an ordered list of byte writes (index, value) to the framebuffer. -/
def applyWrites (fb : Framebuffer) (ws : List (ℕ × ℕ)) : Framebuffer :=
  ws.foldl (fun f iv => fbWrite f iv.1 iv.2) fb

/-- `CSSD1306::DrawChar` (src/ssd1306.cpp:193-217) as its ordered list of
byte writes.  `font` abstracts the `FontDouble` table (glyph index, column
index to 16-bit column value); its data derives from font6x8.h, outside
src/.  For each of the six columns: the column value, XORed with 0x3FFF when
inverted (except the leftmost column), lands as its low byte at `offset` and
its high byte at `offset + 128`; in double-width mode the two bytes just
stored are copied one column to the right, so the copies carry the same
values. -/
def drawCharWrites (font : ℕ → ℕ → ℕ) (ch cx cy : ℕ)
    (inverted doubleWidth : Bool) : List (ℕ × ℕ) :=
  (List.range 6).flatMap fun i =>
    let fc0 := font (ch - 0x20) i
    let fc := if 0 < i ∧ inverted = true then fc0 ^^^ 0x3FFF else fc0
    let off := cy * 128 * 2 + (cx * (if doubleWidth then 12 else 6) + 4) +
      (if doubleWidth then i * 2 else i)
    [(off, fc &&& 0xFF), (off + 128, (fc >>> 8) &&& 0xFF)] ++
      (if doubleWidth then
        [(off + 1, fc &&& 0xFF), (off + 128 + 1, (fc >>> 8) &&& 0xFF)]
      else [])

/-- `CSSD1306::DrawChar` as a framebuffer transformation. -/
def drawChar (font : ℕ → ℕ → ℕ) (ch cx cy : ℕ) (inverted doubleWidth : Bool)
    (fb : Framebuffer) : Framebuffer :=
  applyWrites fb (drawCharWrites font ch cx cy inverted doubleWidth)

/-- Replay a list of character draw calls against the framebuffer.  All
`Print` and `DrawStatusLine` calls use the default non-inverted single-width
mode. -/
def applyCalls (font : ℕ → ℕ → ℕ) (fb : Framebuffer)
    (calls : List (ℕ × ℕ × ℕ)) : Framebuffer :=
  calls.foldl (fun f c => drawChar font c.1 c.2.1 c.2.2 false false f) fb

/-- `CSSD1306::Print` (src/ssd1306.cpp:303-319) as a framebuffer
transformation (the optional immediate transfer sends bytes but does not
change them). -/
def printFb (font : ℕ → ℕ → ℕ) (text : List ℕ) (x y : ℕ) (clearLine : Bool)
    (fb : Framebuffer) : Framebuffer :=
  applyCalls font fb (printCalls text x y clearLine)

/-- `CSSD1306::DrawStatusLine` as a framebuffer transformation. -/
def drawStatusLineFb (font : ℕ → ℕ → ℕ) (messageFlag : Bool)
    (partStates vol : ℕ) (fb : Framebuffer) : Framebuffer :=
  applyCalls font fb (drawStatusLine messageFlag partStates vol)

/-- The two bar-graph byte patterns of `CSSD1306::DrawPartLevels`
(src/ssd1306.cpp:276-293) for one part: the top-page and bottom-page values.
The variables are `u8`, so the shifted patterns truncate to 8 bits on
assignment. -/
def barVals (level peak : ℕ) : ℕ × ℕ :=
  let top0 := if level > 8 then (0xFF <<< (8 - (level - 8))) &&& 0xFF else 0x00
  let bottom0 := if level > 8 then 0xFF else (0xFF <<< (8 - level)) &&& 0xFF
  if peak > 8 then ((top0 ||| (1 <<< (8 - (peak - 8)))) &&& 0xFF, bottom0)
  else (top0, (bottom0 ||| (1 <<< (8 - peak))) &&& 0xFF)

/-- `CSSD1306::DrawPartLevels` (src/ssd1306.cpp:272-301) as its ordered list
of byte writes: for part `i` and bar column `j`, the top value at
`256 + i * 14 + j + 3` and the bottom value at `256 + i * 14 + j + 128 + 3`. -/
def drawPartLevelsWrites (levels peaks : ℕ → ℕ) : List (ℕ × ℕ) :=
  (List.range 9).flatMap fun i =>
    (List.range 12).flatMap fun j =>
      [(256 + i * 14 + j + 3, (barVals (levels i) (peaks i)).1),
       (256 + i * 14 + j + 128 + 3, (barVals (levels i) (peaks i)).2)]

/-- `CSSD1306::DrawPartLevels` as a framebuffer transformation. -/
def drawPartLevels (levels peaks : ℕ → ℕ) (fb : Framebuffer) : Framebuffer :=
  applyWrites fb (drawPartLevelsWrites levels peaks)

/-- `CSSD1306::WriteFramebuffer` (src/ssd1306.cpp:167-171): the bytes of the
single bus transaction — the whole buffer, control byte first,
`height * 16 + 1` bytes. -/
def writeFramebufferBytes (fb : Framebuffer) (height : ℕ) : List ℕ :=
  (List.range (height * 16 + 1)).map fb

/-- `CSSD1306::Clear` (src/ssd1306.cpp:321-325): `std::fill` zeroes bytes 1
to `height * 16` inclusive, then one immediate whole-buffer transfer.
Returns the new framebuffer and the list of transfers performed. -/
def clearScreen (fb : Framebuffer) (height : ℕ) : Framebuffer × List (List ℕ) :=
  let fb2 : Framebuffer := fun i => if 1 ≤ i ∧ i < height * 16 + 1 then 0 else fb i
  (fb2, [writeFramebufferBytes fb2 height])

/-- The constructor initialization `mFramebuffer{0x40}` (src/ssd1306.cpp:145):
element 0 is 0x40, the remaining aggregate elements are value-initialized
to 0. -/
def initialFb : Framebuffer := fun i => if i = 0 then 0x40 else 0

/-- `CSSD1306::UpdatePartLevels` across the nine parts: part `i` steps by
`updatePart` with bit `i` of the part-state mask and its sampled velocity
level. -/
def updateParts (partStates : ℕ) (sampled : ℕ → ℕ) (parts : ℕ → PartState) :
    ℕ → PartState :=
  fun i => if i < 9 then
    updatePart (((partStates >>> i) &&& 1) == 1) (sampled i) (parts i)
  else parts i

/-- `CSSD1306::Update` (src/ssd1306.cpp:338-352) as a framebuffer
transformation: advance the part levels, draw the bar graphs from the new
levels and peaks, then the message row or the status line; the final
`WriteFramebuffer` transfers the result without changing it.  (A null synth
pointer returns before any of this.) -/
def updateFb (font : ℕ → ℕ → ℕ) (ov : OverlayState) (parts : ℕ → PartState)
    (partStates vol : ℕ) (sampled : ℕ → ℕ) (fb : Framebuffer) : Framebuffer :=
  applyCalls font
    (drawPartLevels
      (fun i => (updateParts partStates sampled parts i).level)
      (fun i => (updateParts partStates sampled parts i).peak) fb)
    (updateRow0 ov partStates vol)

/-- Claim C8: `Clear` zeroes every pixel byte (indices 1 through
`height * 16`), leaves the control byte (byte 0) unchanged, and performs
exactly one transfer, whose payload is the whole new framebuffer. -/
theorem C8_clear_zeroes_and_transfers (fb : Framebuffer) (height : ℕ) :
    (∀ i, 1 ≤ i → i ≤ height * 16 → (clearScreen fb height).1 i = 0)
    ∧ (clearScreen fb height).1 0 = fb 0
    ∧ (clearScreen fb height).2.length = 1
    ∧ (clearScreen fb height).2
        = [writeFramebufferBytes (clearScreen fb height).1 height] := by
  refine ⟨?_, ?_, rfl, rfl⟩
  · intro i h1 h2
    show (if 1 ≤ i ∧ i < height * 16 + 1 then 0 else fb i) = 0
    rw [if_pos ⟨h1, by omega⟩]
  · show (if 1 ≤ 0 ∧ 0 < height * 16 + 1 then 0 else fb 0) = fb 0
    rw [if_neg (by omega)]

/-- Witness for C8 on an all-7 framebuffer at height 32: pixel byte 5 becomes
0, byte 0 keeps its value 7, and exactly one transfer happens. -/
theorem C8_clear_zeroes_and_transfers_witness :
    (clearScreen (fun _ => 7) 32).1 5 = 0
    ∧ (clearScreen (fun _ => 7) 32).1 0 = 7
    ∧ (clearScreen (fun _ => 7) 32).2.length = 1 := by
  have h := C8_clear_zeroes_and_transfers (fun _ => 7) 32
  exact ⟨h.1 5 (by norm_num) (by norm_num), h.2.1, h.2.2.1⟩

lemma applyWrites_zero (ws : List (ℕ × ℕ)) : ∀ fb : Framebuffer,
    (∀ p ∈ ws, p.1 ≠ 0) → applyWrites fb ws 0 = fb 0 := by
  induction ws with
  | nil => intro fb _; rfl
  | cons w rest ih =>
    intro fb h
    show applyWrites (fbWrite fb w.1 w.2) rest 0 = fb 0
    rw [ih _ (fun p hp => h p (List.mem_cons_of_mem w hp))]
    exact fbWrite_other _ _ _ _ (Ne.symm (h w (List.mem_cons_self w rest)))

lemma drawCharWrites_pos (font : ℕ → ℕ → ℕ) (ch cx cy : ℕ)
    (inverted doubleWidth : Bool) :
    ∀ p ∈ drawCharWrites font ch cx cy inverted doubleWidth, p.1 ≠ 0 := by
  intro p hp
  simp only [drawCharWrites, List.mem_flatMap, List.mem_range] at hp
  obtain ⟨i, _, hp⟩ := hp
  cases doubleWidth with
  | false =>
    simp at hp
    rcases hp with h | h <;> subst h <;> simp
  | true =>
    simp at hp
    rcases hp with h | h | h | h <;> subst h <;> simp

lemma drawChar_zero (font : ℕ → ℕ → ℕ) (ch cx cy : ℕ)
    (inverted doubleWidth : Bool) (fb : Framebuffer) :
    drawChar font ch cx cy inverted doubleWidth fb 0 = fb 0 :=
  applyWrites_zero _ fb (drawCharWrites_pos font ch cx cy inverted doubleWidth)

lemma applyCalls_zero (font : ℕ → ℕ → ℕ) (calls : List (ℕ × ℕ × ℕ)) :
    ∀ fb : Framebuffer, applyCalls font fb calls 0 = fb 0 := by
  induction calls with
  | nil => intro fb; rfl
  | cons c rest ih =>
    intro fb
    show applyCalls font (drawChar font c.1 c.2.1 c.2.2 false false fb) rest 0 = fb 0
    rw [ih _, drawChar_zero]

lemma drawPartLevelsWrites_pos (levels peaks : ℕ → ℕ) :
    ∀ p ∈ drawPartLevelsWrites levels peaks, p.1 ≠ 0 := by
  intro p hp
  simp only [drawPartLevelsWrites, List.mem_flatMap, List.mem_range] at hp
  obtain ⟨i, _, j, _, hp⟩ := hp
  simp at hp
  rcases hp with h | h <;> subst h <;> simp

lemma drawPartLevels_zero (levels peaks : ℕ → ℕ) (fb : Framebuffer) :
    drawPartLevels levels peaks fb 0 = fb 0 :=
  applyWrites_zero _ fb (drawPartLevelsWrites_pos levels peaks)

/-- Claim C9: byte 0 of the framebuffer holds the 0x40 data-transfer control
byte after construction, and every operation preserves byte 0 — every write
index any of them produces is at least 1. -/
theorem C9_control_byte_invariant (fb : Framebuffer) (pX pY : ℕ)
    (font : ℕ → ℕ → ℕ) (ch cx cy : ℕ) (inverted doubleWidth : Bool)
    (text : List ℕ) (px py : ℕ) (clearLine : Bool) (messageFlag : Bool)
    (partStates vol height : ℕ) (levels peaks sampled : ℕ → ℕ)
    (ov : OverlayState) (parts : ℕ → PartState) :
    initialFb 0 = 0x40
    ∧ setPixel fb pX pY 0 = fb 0
    ∧ clearPixel fb pX pY 0 = fb 0
    ∧ drawChar font ch cx cy inverted doubleWidth fb 0 = fb 0
    ∧ printFb font text px py clearLine fb 0 = fb 0
    ∧ drawStatusLineFb font messageFlag partStates vol fb 0 = fb 0
    ∧ drawPartLevels levels peaks fb 0 = fb 0
    ∧ (clearScreen fb height).1 0 = fb 0
    ∧ updateFb font ov parts partStates vol sampled fb 0 = fb 0 := by
  refine ⟨rfl, ?_, ?_, drawChar_zero _ _ _ _ _ _ _,
    applyCalls_zero _ _ _, applyCalls_zero _ _ _,
    drawPartLevels_zero _ _ _, ?_, ?_⟩
  · rw [setPixel_eq]
    exact fbWrite_other _ _ _ _ (by unfold pixelIndex; omega)
  · rw [clearPixel_eq]
    exact fbWrite_other _ _ _ _ (by unfold pixelIndex; omega)
  · show (if 1 ≤ 0 ∧ 0 < height * 16 + 1 then 0 else fb 0) = fb 0
    rw [if_neg (by omega)]
  · unfold updateFb
    rw [applyCalls_zero, drawPartLevels_zero]

end SSD1306
